import Mathlib

/-!
Shallow embedding of `presidio_image_redactor/dicom_image_redactor_engine.py`
(class `DicomImageRedactorEngine`) and proofs about the claims of its
specification.

Conventions used throughout:
* Python exceptions are modelled by `Except PyErr`; each constructor of
  `PyErr` names the Python exception class the code raises.
* DICOM metadata element values (scalars, strings, pydicom `MultiValue`,
  `list`, `tuple`) are modelled by `PyVal`: a scalar or string is a
  `PyVal.str` (its `str()` form), a sequence-typed value is `PyVal.seq`.
* numpy 2-D pixel arrays are `List (List Int)` (row major); 8-bit PNG
  rasters are `List (List Nat)`.  A pixel value abstracts one sample
  (an intensity for greyscale, a packed sample for color images).
* Python floats are modelled by `ℚ`; the arithmetic the engine performs on
  them (clipping, division by the maximum, scaling by 255, truncation to
  an 8-bit integer) is exact on the values reached by the theorems below.
* The in-place mutation of `copy.deepcopy`-produced instances in
  `_add_redact_box` is modelled by an explicit heap of instances
  (`Heap`), with `deepcopy` an allocation of a fresh reference.
-/

/-- Python exception classes raised (or accidentally triggered) by the
engine. `unboundLocalError` models Python's `UnboundLocalError`, raised when
a function returns a local variable to which no branch assigned;
`attributeError` models the `AttributeError` pydicom's pixel decoder raises
when a DICOM element it depends on is absent from the dataset. -/
inductive PyErr where
  | keyError
  | typeError
  | valueError
  | unboundLocalError
  | attributeError
deriving DecidableEq

/-- A Python value stored in a DICOM metadata element: either a leaf
(scalar or string, kept as its `str()` form) or a sequence
(`pydicom.multival.MultiValue`, `list` or `tuple`). -/
inductive PyVal where
  | str : String → PyVal
  | seq : List PyVal → PyVal

mutual

/-- Decidable structural equality for `PyVal` (Python `==` / `list.remove`
comparison on metadata values). -/
def pyValDecEq : (a b : PyVal) → Decidable (a = b)
  | .str a, .str b =>
    match String.decEq a b with
    | isTrue h => isTrue (by rw [h])
    | isFalse h => isFalse (by intro hc; cases hc; exact h rfl)
  | .str _, .seq _ => isFalse (by intro hc; cases hc)
  | .seq _, .str _ => isFalse (by intro hc; cases hc)
  | .seq as, .seq bs =>
    match pyListDecEq as bs with
    | isTrue h => isTrue (by rw [h])
    | isFalse h => isFalse (by intro hc; cases hc; exact h rfl)

/-- Decidable structural equality for lists of `PyVal`. -/
def pyListDecEq : (as bs : List PyVal) → Decidable (as = bs)
  | [], [] => isTrue rfl
  | [], _ :: _ => isFalse (by intro hc; cases hc)
  | _ :: _, [] => isFalse (by intro hc; cases hc)
  | a :: as, b :: bs =>
    match pyValDecEq a b, pyListDecEq as bs with
    | isTrue h1, isTrue h2 => isTrue (by rw [h1, h2])
    | isFalse h1, _ => isFalse (by intro hc; cases hc; exact h1 rfl)
    | _, isFalse h2 => isFalse (by intro hc; cases hc; exact h2 rfl)

end

instance : DecidableEq PyVal := pyValDecEq

/-- True exactly for sequence-typed values, i.e. the Python test
`type(phi) in [pydicom.multival.MultiValue, list, tuple]`. -/
def PyVal.isSeq : PyVal → Bool
  | .seq _ => true
  | .str _ => false

mutual

/-- Number of nodes of a value, used to size the fuel of the flattening
loop. -/
def pyValSize : PyVal → Nat
  | .str _ => 1
  | .seq l => 1 + pyListSize l

/-- Total number of nodes of a list of values. -/
def pyListSize : List PyVal → Nat
  | [] => 0
  | v :: vs => pyValSize v + pyListSize vs

end

/-- Python `str()` of a metadata value.  A leaf is already its string form;
for a sequence we keep Python's bracketed, comma-separated rendering
(the exact quoting of the elements inside the brackets is abstracted: no
theorem below depends on it, only on the fact that an unflattened sequence
reaches `str()` at all). -/
def pyStr : PyVal → String
  | .str s => s
  | .seq l => "[" ++ String.intercalate ", " (l.map fun v =>
      match v with
      | .str s => s
      | .seq _ => "...") ++ "]"

/-- One cased character processed by Python `str.title()`: upper-case at a
word start, lower-case inside a word. -/
def titleAux : List Char → Bool → List Char
  | [], _ => []
  | c :: cs, prevAlpha =>
    (if c.isAlpha then (if prevAlpha then c.toLower else c.toUpper) else c)
      :: titleAux cs c.isAlpha

/-- Python `str.title()` (`text_1.title()` in `_process_names`). -/
def pyTitle (s : String) : String := ⟨titleAux s.data false⟩

/-- Name iterations produced for one name-bearing element by
`_process_names`: caret replaced by space, the four case variants, then
every space-separated token of each variant. -/
def nameVariants (v : PyVal) : List PyVal :=
  let original := pyStr v
  let t1 := original.replace "^" " "
  let t2 := t1.toUpper
  let t3 := t1.toLower
  let t4 := pyTitle t1
  ([t1, t2, t3, t4] ++ t1.splitOn " " ++ t2.splitOn " "
    ++ t3.splitOn " " ++ t4.splitOn " ").map PyVal.str

/-- Embedding of `_process_names`: the metadata list followed, in element
order, by the name iterations of each element whose `is_name` flag is set.
(The source indexes `is_name[i]` for `i < len(text_metadata)`; the zip
realises exactly those pairs.) -/
def process_names (meta : List PyVal) (isName : List Bool) : List PyVal :=
  meta ++ (meta.zip isName).flatMap fun p => if p.2 then nameVariants p.1 else []

/-- Embedding of `_add_known_generic_phi`: appends the eight sex/gender
sentinel strings. -/
def add_known_generic_phi (l : List PyVal) : List PyVal :=
  l ++ [.str "M", .str "[M]", .str "F", .str "[F]",
        .str "X", .str "[X]", .str "U", .str "[U]"]

/-- Embedding of the flattening loop of `_make_phi_list`
(`for phi in phi_list: if type(phi) in [...]: append items; remove phi`)
with CPython's exact list-iterator semantics: the iterator holds an index
`i`; yielding reads `phi_list[i]` and advances to `i+1`; appends go to the
end of the list being iterated; `list.remove` deletes the first element
equal to `phi`, shifting later elements one slot left.  `fuel` bounds the
number of iterations and is chosen large enough (`pyFlattenAll`) that the
loop always runs to completion. -/
def pyFlattenStep : Nat → List PyVal → Nat → List PyVal
  | 0, l, _ => l
  | fuel + 1, l, i =>
    if h : i < l.length then
      match l.get ⟨i, h⟩ with
      | .seq items => pyFlattenStep fuel ((l ++ items).erase (.seq items)) (i + 1)
      | .str _ => pyFlattenStep fuel l (i + 1)
    else l

/-- The flattening loop started at index 0 with enough fuel to terminate:
every iteration either consumes one node of the total tree size (sequence
case) or moves the index one step closer to the end (leaf case), so
`2 * size + length + 1` iterations always suffice. -/
def pyFlattenAll (l : List PyVal) : List PyVal :=
  pyFlattenStep (2 * pyListSize l + l.length + 1) l 0

/-- Embedding of `_make_phi_list`: process names, append the generic
sentinels, run the flattening loop, convert every entry to its string form,
and deduplicate (`list(set(...))`, here `List.dedup`; the claims below are
about membership only, matching the unordered-set contract of the spec).
`isPatient` is accepted and ignored exactly as in the source. -/
def make_phi_list (meta : List PyVal) (isName : List Bool)
    (isPatient : List Bool) : List String :=
  let phi1 := process_names meta isName
  let phi2 := add_known_generic_phi phi1
  let phi3 := pyFlattenAll phi2
  (phi3.map pyStr).dedup

/-- numpy 2-D indexing `px[r][c]`, `none` when out of bounds. -/
def getPix (px : List (List α)) (r c : Nat) : Option α :=
  (px[r]?).bind fun row => row[c]?

/-- Map with the index of each element, starting at `i`. -/
def mapIdxFrom (f : Nat → α → α) : Nat → List α → List α
  | _, [] => []
  | i, a :: as => f i a :: mapIdxFrom f (i + 1) as

/-- A reconciled redaction rectangle as produced by `_format_bboxes` and
consumed by `_add_redact_box`: non-negative `top`/`left`/`width`/`height`
in DICOM pixel space (the spec's `Rectangle`). -/
structure RedactBox where
  top : Nat
  left : Nat
  width : Nat
  height : Nat
deriving DecidableEq

/-- One numpy slice assignment
`pixel_array[top : top+height, left : left+width] = box_color`
(slices clip silently at the array bounds, as numpy basic slicing does). -/
def applyBox (px : List (List Int)) (b : RedactBox) (color : Int) :
    List (List Int) :=
  mapIdxFrom (fun r row =>
    if b.top ≤ r ∧ r < b.top + b.height then
      mapIdxFrom (fun c v =>
        if b.left ≤ c ∧ c < b.left + b.width then color else v) 0 row
    else row) 0 px

/-- The masking loop of `_add_redact_box`: each rectangle is written
sequentially, in input-list order, onto the working pixel buffer. -/
def apply_mask : List (List Int) → List RedactBox → Int → List (List Int)
  | px, [], _ => px
  | px, b :: bs, color => apply_mask (applyBox px b color) bs color

/-- A loaded DICOM instance: the optional Photometric Interpretation
element `(0x0028, 0x0004)`, the decoded pixel buffer, and the remaining
metadata elements. -/
structure InstanceData where
  photometric : Option String
  pixels : List (List Int)
  meta : List PyVal
deriving DecidableEq

/-- A heap of DICOM instances, giving deep copies and in-place pixel
mutation explicit reference semantics: `data` maps references to instance
values and `next` is the next fresh reference. -/
structure Heap where
  data : Nat → InstanceData
  next : Nat

/-- Dereference an instance. -/
def Heap.read (h : Heap) (r : Nat) : InstanceData := h.data r

/-- Overwrite the instance a reference points to (in-place mutation). -/
def Heap.write (h : Heap) (r : Nat) (d : InstanceData) : Heap :=
  ⟨fun x => if x = r then d else h.data x, h.next⟩

/-- `copy.deepcopy`: allocate a fresh reference holding an independent copy
of the given value. -/
def Heap.alloc (h : Heap) (d : InstanceData) : Heap × Nat :=
  (⟨fun x => if x = h.next then d else h.data x, h.next + 1⟩, h.next)

/-- Embedding of `_check_if_greyscale`: reads element `(0x0028, 0x0004)`
(a missing element raises `KeyError` in pydicom) and reports greyscale
exactly when its value differs from the string "RGB". -/
def check_if_greyscale (d : InstanceData) : Except PyErr Bool :=
  match d.photometric with
  | none => .error .keyError
  | some colorScale => .ok (colorScale != "RGB")

/-- Largest element of a list, `none` on the empty list (numpy `max` and
`ndarray.max()` raise on an empty array). -/
def npMax [LinearOrder α] : List α → Option α
  | [] => none
  | x :: xs =>
    match npMax xs with
    | none => some x
    | some m => some (max x m)

/-- Conversion of a Python float to `np.uint8` for the non-negative values
this pipeline produces: truncate (floor) and wrap modulo 2^8. -/
def toUint8 (q : ℚ) : Nat := (Int.toNat ⌊q⌋) % 256

/-- The pixel buffer cast to floating point
(`image_2d.astype(float)`, row-major flattening; exact for integer pixel
values). -/
def floatsOf (px : List (List Int)) : List ℚ :=
  px.flatten.map fun p => (p : ℚ)

/-- One pixel of the greyscale contrast stretch:
`(np.maximum(x, 0) / m) * 255.0` where `m` is the per-image maximum of the
unclipped float array. -/
def scalePix (m : ℚ) (p : Int) : Nat := toUint8 (max (p : ℚ) 0 / m * 255)

/-- Embedding of `_rescale_dcm_pixel_array` on the (possibly VOI-windowed)
pixel buffer: greyscale images are contrast stretched by the per-image
maximum of the unclipped float array and truncated to 8 bits; color images
are truncated to 8 bits unscaled.  The VOI lookup (`apply_voi_lut`, an
external pydicom routine) happens upstream, so the argument is the array
the arithmetic actually runs on. -/
def rescale_dcm_pixel_array (px : List (List Int)) (isGrey : Bool) :
    Except PyErr (List (List Nat)) :=
  if isGrey then
    match npMax (floatsOf px) with
    | none => .error .valueError
    | some m => .ok (px.map (List.map fun p => scalePix m p))
  else
    .ok (px.map (List.map fun p => toUint8 ((p : Int) : ℚ)))

/-- Embedding of `_convert_dcm_to_png`: determine the color mode, rescale
the pixel buffer, and return the written raster together with the mode
(the source returns the raster's shape and the mode; the raster itself is
what the later steps reload from disk). -/
def convert_dcm_to_png (d : InstanceData) :
    Except PyErr (List (List Nat) × Bool) :=
  match check_if_greyscale d with
  | .error e => .error e
  | .ok isGrey =>
    match rescale_dcm_pixel_array d.pixels isGrey with
    | .error e => .error e
    | .ok image => .ok (image, isGrey)

/-- First index of the maximal entry (`np.argmax`: ties keep the first). -/
def argmaxAux : List Nat → Nat → Nat → Nat → Nat
  | [], _, bi, _ => bi
  | c :: cs, i, bi, bc =>
    if bc < c then argmaxAux cs (i + 1) i c else argmaxAux cs (i + 1) bi bc

/-- Mode of a list of 8-bit values via a histogram indexed by value
(`np.bincount(...).argmax()`): ties resolve to the smallest value. -/
def bincountArgmax (l : List Nat) : Nat :=
  let m := l.foldr max 0
  argmaxAux ((List.range (m + 1)).map fun v => l.count v) 0 0 0

/-- PIL `ImageOps.invert` on an 8-bit raster: every sample becomes
`255 - sample` (for color images the inversion is channelwise; the model
applies it to the abstracted sample). -/
def pilInvert (png : List (List Nat)) : List (List Nat) :=
  png.map (List.map fun v => 255 - v)

/-- Modelled from the spec: the color branch of `_get_bg_color` shrinks the
raster to one pixel with PIL's fixed non-interpolating (nearest) resampling
filter and reads that pixel; the resampler is internal to the imaging
library, so the model reads the representative (central) sample.  No claim
depends on which pixel the filter selects. -/
def resizeDominant (png : List (List Nat)) : Nat :=
  (getPix png (png.length / 2) ((png.headD []).length / 2)).getD 0

/-- Embedding of `_get_bg_color`: optionally invert the raster, then select
the most common intensity (greyscale, histogram argmax) or the dominant
color (color, 1x1 nearest resize). -/
def get_bg_color (png : List (List Nat)) (isGrey : Bool) (invert : Bool) :
    Nat :=
  let image := if invert then pilInvert png else png
  if isGrey then bincountArgmax image.flatten else resizeDominant image

/-- The geometric part of `_add_padding`: a new raster of the image's mode,
`2 * w` larger in each dimension, filled with the border color, with the
original pasted at offset `(w, w)`.  `PIL.Image.size` reads the width off
the (rectangular) raster's first row. -/
def padGrid (g : List (List α)) (bg : α) (w : Nat) : List (List α) :=
  let width := (g.headD []).length
  List.replicate w (List.replicate (width + 2 * w) bg)
    ++ g.map (fun row => List.replicate w bg ++ row ++ List.replicate w bg)
    ++ List.replicate w (List.replicate (width + 2 * w) bg)

/-- Embedding of `_add_padding`: reject non-positive widths and widths of
at least 100 (both `ValueError`), then pad with the most common
(non-inverted) background color. -/
def add_padding (image : List (List Nat)) (isGrey : Bool)
    (paddingWidth : Int) : Except PyErr (List (List Nat)) :=
  if paddingWidth ≤ 0 then .error .valueError
  else if 100 ≤ paddingWidth then .error .valueError
  else
    let borderColor := get_bg_color image isGrey false
    .ok (padGrid image borderColor paddingWidth.toNat)

/-- Removing a border of width `w` again: drop `w` leading rows, keep
`rows` rows, and in each kept row drop `w` leading pixels and keep `cols`
pixels. -/
def cropBorder (w rows cols : Nat) (g : List (List α)) : List (List α) :=
  ((g.drop w).take rows).map fun row => (row.drop w).take cols

/-- Ordered insertion, used to model the sorted distinct values returned by
`np.unique`. -/
def insertSortedZ (x : Int) : List Int → List Int
  | [] => [x]
  | y :: ys => if x ≤ y then x :: y :: ys else y :: insertSortedZ x ys

/-- `np.unique`: the distinct values of the array in increasing order. -/
def sortedUnique (l : List Int) : List Int :=
  l.dedup.foldr insertSortedZ []

/-- Python `str.lower()` (`box_color_setting.lower()`), character-wise on
the string's characters. -/
def pyLower (s : String) : String := ⟨s.data.map Char.toLower⟩

/-- The synonyms accepted for the contrast setting (`box_color_setting`
is lower-cased before the comparison). -/
def contrastSynonyms : List String := ["contrast", "invert", "inverted", "inverse"]

/-- The synonyms accepted for the background setting. -/
def backgroundSynonyms : List String := ["background", "bg"]

/-- The `instance.pixel_array` decode of pydicom: the decoder itself reads
the Photometric Interpretation element (its expected-length computation and
YBR handling depend on it), so on a dataset lacking element
`(0x0028, 0x0004)` the read raises `AttributeError`; when the element is
present it yields the decoded pixel buffer. -/
def pixel_array (d : InstanceData) : Except PyErr (List (List Int)) :=
  match d.photometric with
  | none => .error .attributeError
  | some _ => .ok d.pixels

/-- Embedding of `_get_most_common_pixel_value`: decode and flatten the
pixel buffer (the decode happens first, before the greyscale check, and
raises `AttributeError` when the Photometric Interpretation element is
missing), then require a greyscale instance (`TypeError` otherwise), take
the mode via `np.unique` plus `np.argmax` over the counts (`ValueError` on
an empty array), and dispatch on the lower-cased setting: the contrast
synonyms return `max - mode`, the background synonyms return the mode, and
any other value falls through both branches, so the `return pixel_value`
statement raises `UnboundLocalError`. -/
def get_most_common_pixel_value (d : InstanceData) (setting : String) :
    Except PyErr Int :=
  match pixel_array d with
  | .error e => .error e
  | .ok px =>
  let flat := px.flatten
  match check_if_greyscale d with
  | .error e => .error e
  | .ok isGrey =>
    if isGrey then
      if flat.isEmpty then .error .valueError
      else
        let values := sortedUnique flat
        let counts := values.map fun v => flat.count v
        let commonValue := values.getD (argmaxAux counts 0 0 0) 0
        if contrastSynonyms.contains (pyLower setting) then
          .ok ((npMax flat).getD 0 - commonValue)
        else if backgroundSynonyms.contains (pyLower setting) then
          .ok commonValue
        else
          .error .unboundLocalError
    else
      .error .typeError

/-- Embedding of `_set_bbox_color`: validate the setting first
(`ValueError` for anything outside the two synonym sets), then save the
instance to a scratch file, reconvert it to a raster, and read the
background color with the chosen invert flag. -/
def set_bbox_color (d : InstanceData) (setting : String) :
    Except PyErr Nat :=
  match (if contrastSynonyms.contains (pyLower setting) then .ok true
         else if backgroundSynonyms.contains (pyLower setting) then .ok false
         else .error .valueError : Except PyErr Bool) with
  | .error e => .error e
  | .ok invertFlag =>
    match convert_dcm_to_png d with
    | .error e => .error e
    | .ok (png, isGrey) => .ok (get_bg_color png isGrey invertFlag)

/-- Embedding of `_add_redact_box`: deep-copy the instance, determine the
color mode from the original, select the mask color (directly from the
original's pixel histogram for greyscale, via the raster path on the copy
for color), write every rectangle sequentially onto the copy's pixel
buffer, commit the buffer back into the copy (`PixelData` reserialization),
and return the copy's reference together with the final heap. -/
def add_redact_box (h : Heap) (inst : Nat) (boxes : List RedactBox)
    (setting : String) : Except PyErr (Heap × Nat) :=
  let (h1, red) := h.alloc (h.read inst)
  match check_if_greyscale (h1.read inst) with
  | .error e => .error e
  | .ok isGrey =>
    match (if isGrey then get_most_common_pixel_value (h1.read inst) setting
           else
             match set_bbox_color (h1.read red) setting with
             | .error e => .error e
             | .ok c => .ok (Int.ofNat c)) with
    | .error e => .error e
    | .ok boxColor =>
      let d := h1.read red
      let h2 := h1.write red
        { d with pixels := apply_mask d.pixels boxes boxColor }
      .ok (h2, red)

/-- One detection as returned by the analyzer and organized by
`_get_bboxes_from_analyzer_results`: entity label, confidence score, and a
rectangle in padded-raster coordinates. -/
structure AnalyzerResult where
  entityType : String
  score : ℚ
  left : Nat
  top : Nat
  width : Nat
  height : Nat
deriving DecidableEq

/-- Embedding of `_format_bboxes`: reject a negative padding width
(`ValueError`, before touching any result), then shift every box's `top`
and `left` back by the padding width, clamped at zero (natural-number
subtraction is exactly `max 0 (a - w)`), keeping `width`/`height` and the
input order (Python dicts preserve insertion order, so the intermediate
dict keyed by `str(i)` is order-preserving). -/
def format_bboxes (analyzerResults : List AnalyzerResult)
    (paddingWidth : Int) : Except PyErr (List RedactBox) :=
  if paddingWidth < 0 then .error .valueError
  else
    .ok (analyzerResults.map fun r =>
      { top := r.top - paddingWidth.toNat,
        left := r.left - paddingWidth.toNat,
        width := r.width,
        height := r.height })

/-- The extensions `_get_all_dcm_files` globs for. -/
def dcmExtensions : List String := ["dcm", "dicom"]

/-- Whether `pathlib.Path.glob` with the pattern `**/*.{ext}` matches a
file name: on a POSIX filesystem the match is case-sensitive, so this is a
case-sensitive suffix test against `"." ++ ext`. -/
def globMatches (fileName : String) (ext : String) : Bool :=
  ("." ++ ext).data.isSuffixOf fileName.data

/-- Embedding of `_get_all_dcm_files` over the recursively enumerated file
names of the directory tree: for each extension in turn, the files whose
name the glob pattern matches, concatenated. -/
def get_all_dcm_files (files : List String) : List String :=
  dcmExtensions.flatMap fun ext => files.filter fun f => globMatches f ext

/-- Two adjacent sequence-typed metadata values: the flattening loop
removes the first while the list iterator is standing on it, shifting the
second into the already-visited slot, so the second is skipped. -/
def cAdjacentMeta : List PyVal := [.seq [.str "a"], .seq [.str "b"]]

/-- Two concrete analyzer detections used to instantiate the geometry
reconciliation theorem. -/
def cResults : List AnalyzerResult :=
  [⟨"PERSON", 85 / 100, 30, 12, 40, 9⟩, ⟨"DATE", 1 / 2, 2, 3, 10, 5⟩]

/-- A one-pixel raster for the padding rejection checks. -/
def cPng : List (List Nat) := [[0]]

/-- A concrete greyscale instance (Photometric Interpretation MONOCHROME2)
with a 2 x 2 pixel buffer whose histogram is dominated by 0. -/
def cGreyInst : InstanceData :=
  ⟨some "MONOCHROME2", [[0, 0], [0, 7]], [.str "Doe^Jane"]⟩

/-- A heap holding `cGreyInst` at reference 0. -/
def cHeap : Heap := ⟨fun _ => cGreyInst, 1⟩

/-- A concrete 2 x 2 greyscale buffer with maximum 5 and a negative
pixel. -/
def cRescalePx : List (List Int) := [[-3, 0], [5, 2]]

/-- A concrete 1 x 2 raster for the padding round trip. -/
def cPadImg : List (List Nat) := [[3, 1]]

/-- A rectangle covers pixel `(r, c)` when the pixel lies in its span
`[top, top+height) x [left, left+width)`. -/
def covers (b : RedactBox) (r c : Nat) : Prop :=
  (b.top ≤ r ∧ r < b.top + b.height) ∧ (b.left ≤ c ∧ c < b.left + b.width)

instance coversDec (b : RedactBox) (r c : Nat) : Decidable (covers b r c) :=
  inferInstanceAs (Decidable ((_ ∧ _) ∧ (_ ∧ _)))

/-- What C2 asserts of one run of `_add_redact_box`: if the call succeeds,
the returned reference is a new instance, distinct from the caller's, and
the caller's instance - pixel buffer and metadata alike - reads back
unchanged from the final heap. -/
def addRedactBoxPreserves (h : Heap) (inst : Nat) (boxes : List RedactBox)
    (setting : String) : Prop :=
  match add_redact_box h inst boxes setting with
  | .ok (hout, red) => red ≠ inst ∧ hout.read inst = h.read inst
  | .error _ => True

/-- A concrete instance lacking the Photometric Interpretation element. -/
def cMissInst : InstanceData := ⟨none, [[1]], []⟩

/-- A heap holding `cMissInst` at reference 0. -/
def cMissHeap : Heap := ⟨fun _ => cMissInst, 1⟩

/-!  Lemmas and claim theorems. -/

/-- Leaf (string) entries are never removed by the flattening loop: only an
element equal to the sequence being flattened is removed, and appends only
add elements. -/
theorem str_mem_pyFlattenStep (fuel : Nat) (l : List PyVal) (i : Nat)
    (s : String) (h : PyVal.str s ∈ l) :
    PyVal.str s ∈ pyFlattenStep fuel l i := by
  induction fuel generalizing l i with
  | zero => simpa [pyFlattenStep] using h
  | succ n ih =>
    rw [pyFlattenStep]
    split
    · split
      · apply ih
        refine (List.mem_erase_of_ne ?_).mpr (List.mem_append_left _ h)
        intro hc
        cases hc
      · exact ih _ _ h
    · exact h

/-- C4: for every metadata input (including empty metadata), the deny-list
produced by `_make_phi_list` contains all eight sentinel strings
"M", "[M]", "F", "[F]", "X", "[X]", "U", "[U]": they are appended by
`_add_known_generic_phi` after name processing, survive the flattening
loop, are their own string form, and deduplication preserves membership. -/
theorem make_phi_list_contains_sentinels (meta : List PyVal)
    (isName : List Bool) (isPatient : List Bool) :
    "M" ∈ make_phi_list meta isName isPatient ∧
    "[M]" ∈ make_phi_list meta isName isPatient ∧
    "F" ∈ make_phi_list meta isName isPatient ∧
    "[F]" ∈ make_phi_list meta isName isPatient ∧
    "X" ∈ make_phi_list meta isName isPatient ∧
    "[X]" ∈ make_phi_list meta isName isPatient ∧
    "U" ∈ make_phi_list meta isName isPatient ∧
    "[U]" ∈ make_phi_list meta isName isPatient := by
  have key : ∀ t : String,
      PyVal.str t ∈ add_known_generic_phi (process_names meta isName) →
      t ∈ make_phi_list meta isName isPatient := by
    intro t ht
    unfold make_phi_list
    exact List.mem_dedup.mpr
      (List.mem_map.mpr ⟨PyVal.str t, str_mem_pyFlattenStep _ _ _ _ ht, rfl⟩)
  refine ⟨key "M" ?_, key "[M]" ?_, key "F" ?_, key "[F]" ?_,
          key "X" ?_, key "[X]" ?_, key "U" ?_, key "[U]" ?_⟩ <;>
    exact List.mem_append_right _ (by simp [add_known_generic_phi])

/-- C5 (failing evaluation): on metadata holding two adjacent sequences the
flattening loop of `_make_phi_list` terminates with a sequence-typed entry
still present, and the final deny-list contains the string form of that
unflattened sequence; a triply nested sequence is skipped the same way
(the inner sequence lands in the slot of its just-removed parent). -/
theorem flatten_loop_misses_adjacent_seq :
    (pyFlattenAll (add_known_generic_phi
        (process_names cAdjacentMeta [false, false]))).any PyVal.isSeq = true ∧
    pyStr (PyVal.seq [PyVal.str "b"]) ∈
      make_phi_list cAdjacentMeta [false, false] [false, false] ∧
    (pyFlattenAll (add_known_generic_phi
        (process_names [PyVal.seq [PyVal.seq [PyVal.seq [PyVal.str "x"]]]]
          [false]))).any PyVal.isSeq = true := by
  decide

/-- C3: `_format_bboxes` maps every non-negative padding width to the
order-preserving, length-preserving list in which each rectangle's `top`
and `left` are shifted back by the width and clamped at zero with
`width`/`height` unchanged, and rejects every negative padding width with
a `ValueError` before processing any result. -/
theorem format_bboxes_spec (rs : List AnalyzerResult) (w : Int) :
    (0 ≤ w →
      ∃ out, format_bboxes rs w = .ok out ∧
        out.length = rs.length ∧
        ∀ i, i < rs.length →
          ∃ r b, rs[i]? = some r ∧ out[i]? = some b ∧
            (b.top : Int) = max 0 ((r.top : Int) - w) ∧
            (b.left : Int) = max 0 ((r.left : Int) - w) ∧
            b.width = r.width ∧ b.height = r.height) ∧
    (w < 0 → format_bboxes rs w = .error .valueError) := by
  constructor
  · intro hw
    refine ⟨rs.map fun r =>
      { top := r.top - w.toNat, left := r.left - w.toNat,
        width := r.width, height := r.height }, ?_, by simp, ?_⟩
    · simp [format_bboxes, not_lt.mpr hw]
    · intro i hi
      refine ⟨rs[i],
        { top := rs[i].top - w.toNat, left := rs[i].left - w.toNat,
          width := rs[i].width, height := rs[i].height }, ?_, ?_, ?_, ?_, rfl, rfl⟩
      · exact List.getElem?_eq_getElem hi
      · rw [List.getElem?_map, List.getElem?_eq_getElem hi]
        rfl
      · dsimp only
        omega
      · dsimp only
        omega
  · intro hw
    simp [format_bboxes, hw]

/-- Witness for C3: the reconciliation theorem applied at a non-negative
and at a negative concrete padding width. -/
theorem format_bboxes_spec_witness :
    (0 ≤ (25 : Int)) ∧ ((-1 : Int) < 0) ∧
    (∃ out, format_bboxes cResults 25 = .ok out ∧
      out.length = cResults.length ∧
      ∀ i, i < cResults.length →
        ∃ r b, cResults[i]? = some r ∧ out[i]? = some b ∧
          (b.top : Int) = max 0 ((r.top : Int) - 25) ∧
          (b.left : Int) = max 0 ((r.left : Int) - 25) ∧
          b.width = r.width ∧ b.height = r.height) ∧
    format_bboxes cResults (-1) = .error .valueError :=
  ⟨by decide, by decide,
    (format_bboxes_spec cResults 25).1 (by decide),
    (format_bboxes_spec cResults (-1)).2 (by decide)⟩

/-- C7 (evaluation at the failing input): the padding transform rejects the
widths 0, -5 and 150 with `ValueError`, and `_set_bbox_color` rejects the
setting "sideways" with `ValueError`; but `_get_most_common_pixel_value` -
the color selector of the greyscale path, also reached from
`_add_redact_box` - has no rejection branch for "sideways": it falls
through both synonym tests and fails with `UnboundLocalError`, which is not
the configuration error the claim describes. -/
theorem invalid_config_evaluation :
    add_padding cPng true 0 = .error .valueError ∧
    add_padding cPng true (-5) = .error .valueError ∧
    add_padding cPng true 150 = .error .valueError ∧
    set_bbox_color cGreyInst "sideways" = .error .valueError ∧
    get_most_common_pixel_value cGreyInst "sideways" = .error .unboundLocalError ∧
    add_redact_box cHeap 0 [] "sideways" = .error .unboundLocalError ∧
    PyErr.unboundLocalError ≠ PyErr.valueError :=
  ⟨rfl, rfl, rfl, rfl, rfl, rfl, by decide⟩

/-- C9 (evaluation at the failing input): the glob patterns are the two
lower-case extensions and POSIX `pathlib` globbing is case-sensitive, so a
file named with an upper-case DICOM extension is not enumerated, contrary
to the case-insensitive enumeration the claim (and the comment in the
source) describes. -/
theorem dcm_glob_is_case_sensitive :
    get_all_dcm_files ["scan.dcm", "scan.DCM", "img.dicom", "img.DICOM", "notes.txt"]
      = ["scan.dcm", "img.dicom"] ∧
    "scan.DCM" ∉
      get_all_dcm_files ["scan.dcm", "scan.DCM", "img.dicom", "img.DICOM", "notes.txt"] ∧
    "img.DICOM" ∉
      get_all_dcm_files ["scan.dcm", "scan.DCM", "img.dicom", "img.DICOM", "notes.txt"] := by
  decide

/-- `npMax` returns `none` only on the empty list. -/
theorem npMax_eq_none [LinearOrder α] (l : List α) (h : npMax l = none) :
    l = [] := by
  cases l with
  | nil => rfl
  | cons x xs =>
    rw [npMax] at h
    cases hx : npMax xs <;> rw [hx] at h <;> cases h

/-- The value `npMax` returns bounds every element of the list. -/
theorem npMax_is_ub [LinearOrder α] (l : List α) (m : α)
    (hm : npMax l = some m) : ∀ x ∈ l, x ≤ m := by
  induction l generalizing m with
  | nil => simp [npMax] at hm
  | cons y ys ih =>
    intro x hx
    rw [npMax] at hm
    cases hys : npMax ys with
    | none =>
      rw [hys] at hm
      cases hm
      rcases List.mem_cons.mp hx with h | h
      · exact le_of_eq h
      · rw [npMax_eq_none ys hys] at h
        simp at h
    | some m0 =>
      rw [hys] at hm
      cases hm
      rcases List.mem_cons.mp hx with h | h
      · exact h ▸ le_max_left _ _
      · exact le_trans (ih m0 hys x h) (le_max_right _ _)

/-- `np.uint8` output is always an 8-bit value. -/
theorem toUint8_le (q : ℚ) : toUint8 q ≤ 255 :=
  Nat.lt_succ_iff.mp (Nat.mod_lt _ (by norm_num))

/-- A pixel attaining a positive per-image maximum is stretched to exactly
255. -/
theorem scalePix_at_max (m : ℚ) (v : Int) (hpos : 0 < m)
    (hv : (v : ℚ) = m) : scalePix m v = 255 := by
  unfold scalePix toUint8
  rw [hv, max_eq_left hpos.le, div_self (ne_of_gt hpos), one_mul]
  norm_num
  decide

/-- A negative pixel is clipped to 0 before the stretch, so it maps to 0
(for any nonzero maximum the quotient is exactly 0). -/
theorem scalePix_of_neg (m : ℚ) (v : Int) (hv : v < 0) : scalePix m v = 0 := by
  unfold scalePix toUint8
  rw [max_eq_right (by exact_mod_cast hv.le), zero_div, zero_mul]
  norm_num

/-- Elementwise reading of a doubly mapped pixel grid. -/
theorem getPix_map (f : α → β) (px : List (List α)) (r c : Nat) :
    getPix (px.map (List.map f)) r c = (getPix px r c).map f := by
  unfold getPix
  rw [List.getElem?_map]
  cases px[r]? with
  | none => rfl
  | some row => simp [List.getElem?_map]

/-- C6 (counterexample to the claim as stated): on the all-negative buffer
`[[-5]]` the per-image float maximum is -5, so the (unique) pixel equal to
the per-image maximum rescales to 0, not 255: the clipped numerator is 0
and `0 / -5 = 0`. -/
theorem rescale_grey_max_not_255 :
    rescale_dcm_pixel_array [[-5]] true = .ok [[0]] ∧
    npMax (floatsOf [[-5]]) = some (-5) ∧ (0 : Nat) ≠ 255 := by
  refine ⟨?_, by decide, by decide⟩
  rw [rescale_dcm_pixel_array]
  norm_num [floatsOf, npMax, scalePix, toUint8]

/-- C6 (amended: the per-image maximum must be positive): for every
greyscale buffer whose float maximum `m` is positive, the rescale succeeds,
every output value lies in [0, 255], every pixel equal to the maximum maps
to exactly 255, and every negative pixel maps to 0. -/
theorem rescale_grey_full_range (px : List (List Int)) (m : ℚ)
    (hm : npMax (floatsOf px) = some m) (hpos : 0 < m) :
    ∃ out, rescale_dcm_pixel_array px true = .ok out ∧
      ∀ r c v, getPix px r c = some v →
        ∃ u, getPix out r c = some u ∧ u ≤ 255 ∧
          ((v : ℚ) = m → u = 255) ∧ (v < 0 → u = 0) := by
  refine ⟨px.map (List.map fun p => scalePix m p), ?_, ?_⟩
  · rw [rescale_dcm_pixel_array]
    simp [hm]
  · intro r c v hv
    refine ⟨scalePix m v, ?_, toUint8_le _, scalePix_at_max m v hpos,
      scalePix_of_neg m v⟩
    rw [getPix_map, hv]
    rfl

/-- Witness for C6 (amended): the contrast-stretch theorem applied to a
concrete buffer with positive maximum. -/
theorem rescale_grey_full_range_witness :
    npMax (floatsOf cRescalePx) = some 5 ∧ (0 : ℚ) < 5 ∧
    (∃ out, rescale_dcm_pixel_array cRescalePx true = .ok out ∧
      ∀ r c v, getPix cRescalePx r c = some v →
        ∃ u, getPix out r c = some u ∧ u ≤ 255 ∧
          ((v : ℚ) = 5 → u = 255) ∧ (v < 0 → u = 0)) :=
  ⟨by decide, by decide,
    rescale_grey_full_range cRescalePx 5 (by decide) (by decide)⟩

/-- Dropping the left border and keeping a row's own length undoes the
horizontal padding of one row. -/
theorem crop_pad_row (row pad : List α) (cols : Nat)
    (hrow : row.length = cols) :
    ((pad ++ row ++ pad).drop pad.length).take cols = row := by
  rw [List.append_assoc, List.drop_left, ← hrow, List.take_left]

/-- The number of rows `_add_padding` produces. -/
theorem padGrid_length (g : List (List α)) (bg : α) (w : Nat) :
    (padGrid g bg w).length = g.length + 2 * w := by
  simp [padGrid]
  omega

/-- Cropping a border of width `w` from the padded raster recovers the
original raster exactly, pixel for pixel. -/
theorem cropBorder_padGrid (g : List (List α)) (bg : α) (w cols : Nat)
    (hcols : ∀ row ∈ g, row.length = cols) :
    cropBorder w g.length cols (padGrid g bg w) = g := by
  unfold cropBorder padGrid
  have hdrop :
      ((List.replicate w (List.replicate ((g.headD []).length + 2 * w) bg)
        ++ (g.map fun row =>
            List.replicate w bg ++ row ++ List.replicate w bg)
        ++ List.replicate w
            (List.replicate ((g.headD []).length + 2 * w) bg)).drop w)
      = (g.map fun row => List.replicate w bg ++ row ++ List.replicate w bg)
        ++ List.replicate w
            (List.replicate ((g.headD []).length + 2 * w) bg) := by
    rw [List.append_assoc]
    have := List.drop_left
      (List.replicate w (List.replicate ((g.headD []).length + 2 * w) bg))
      ((g.map fun row => List.replicate w bg ++ row ++ List.replicate w bg)
        ++ List.replicate w
            (List.replicate ((g.headD []).length + 2 * w) bg))
    rwa [List.length_replicate] at this
  rw [hdrop]
  have htake :
      (((g.map fun row =>
          List.replicate w bg ++ row ++ List.replicate w bg)
        ++ List.replicate w
            (List.replicate ((g.headD []).length + 2 * w) bg)).take g.length)
      = g.map fun row => List.replicate w bg ++ row ++ List.replicate w bg := by
    have := List.take_left
      (g.map fun row => List.replicate w bg ++ row ++ List.replicate w bg)
      (List.replicate w (List.replicate ((g.headD []).length + 2 * w) bg))
    rwa [List.length_map] at this
  rw [htake, List.map_map]
  have : ∀ row ∈ g,
      ((List.replicate w bg ++ row ++ List.replicate w bg).drop w).take cols
        = row := by
    intro row hrow
    have := crop_pad_row row (List.replicate w bg) cols (hcols row hrow)
    rwa [List.length_replicate] at this
  calc g.map (fun row =>
          ((List.replicate w bg ++ row ++ List.replicate w bg).drop w).take
            cols)
      = g.map id := List.map_congr_left fun row hrow => this row hrow
    _ = g := List.map_id g

/-- C8: for every nonempty rectangular raster and every accepted padding
width (0 < w < 100), `_add_padding` succeeds and yields a raster of size
(rows + 2w, cols + 2w) with the original pasted at offset (w, w): cropping
a border of width w from each side recovers the original raster exactly. -/
theorem add_padding_roundtrip (image : List (List Nat)) (isGrey : Bool)
    (w : Int) (cols : Nat) (hw0 : 0 < w) (hw100 : w < 100)
    (hne : image ≠ []) (hcols : ∀ row ∈ image, row.length = cols) :
    ∃ padded, add_padding image isGrey w = .ok padded ∧
      padded.length = image.length + 2 * w.toNat ∧
      (∀ row ∈ padded, row.length = cols + 2 * w.toNat) ∧
      cropBorder w.toNat image.length cols padded = image := by
  have hwidth : (image.headD []).length = cols := by
    cases image with
    | nil => exact absurd rfl hne
    | cons r rs => exact hcols r (List.mem_cons_self r rs)
  refine ⟨padGrid image (get_bg_color image isGrey false) w.toNat, ?_, ?_, ?_, ?_⟩
  · rw [add_padding, if_neg (by omega), if_neg (by omega)]
  · exact padGrid_length _ _ _
  · intro row hrow
    unfold padGrid at hrow
    rcases List.mem_append.mp hrow with h | h
    · rcases List.mem_append.mp h with h1 | h1
      · rw [List.eq_of_mem_replicate h1, List.length_replicate, hwidth]
      · rcases List.mem_map.mp h1 with ⟨r, hr, hrow2⟩
        rw [← hrow2]
        simp only [List.length_append, List.length_replicate]
        rw [hcols r hr]
        omega
    · rw [List.eq_of_mem_replicate h, List.length_replicate, hwidth]
  · exact cropBorder_padGrid image _ w.toNat cols hcols

/-- Witness for C8: the round-trip theorem applied to a concrete raster
with padding width 1. -/
theorem add_padding_roundtrip_witness :
    (0 : Int) < 1 ∧ (1 : Int) < 100 ∧ cPadImg ≠ [] ∧
    (∀ row ∈ cPadImg, row.length = 2) ∧
    (∃ padded, add_padding cPadImg true 1 = .ok padded ∧
      padded.length = cPadImg.length + 2 * (1 : Int).toNat ∧
      (∀ row ∈ padded, row.length = 2 + 2 * (1 : Int).toNat) ∧
      cropBorder (1 : Int).toNat cPadImg.length 2 padded = cPadImg) :=
  ⟨by decide, by decide, by decide, by decide,
    add_padding_roundtrip cPadImg true 1 2 (by decide) (by decide)
      (by decide) (by decide)⟩

/-- C10 (counterexample to the claim as stated): on an instance lacking
element `(0x0028, 0x0004)`, `_get_most_common_pixel_value` reads
`instance.pixel_array` (line 193) before it calls `_check_if_greyscale`
(line 195), and the pixel decode itself depends on the Photometric
Interpretation element, so the operation dies there with `AttributeError` -
which is not a lookup error - and the `KeyError` of the check is never
reached. -/
theorem most_common_pixel_value_attribute_error :
    get_most_common_pixel_value cMissInst "contrast"
      = .error .attributeError ∧
    PyErr.attributeError ≠ PyErr.keyError :=
  ⟨rfl, by decide⟩

/-- C10 (amended: the most-common-pixel-value selection fails during the
pixel decode, with an attribute error, before its greyscale check): on an
instance lacking element `(0x0028, 0x0004)` the greyscale check, the raster
conversion and the redaction applicator - each of which runs
`_check_if_greyscale` before touching pixel data - fail with the lookup
error (`KeyError`), while `_get_most_common_pixel_value` fails even
earlier, inside the `pixel_array` decode, with `AttributeError`; in every
case the operation fails rather than defaulting to a color mode. -/
theorem missing_photometric_error_paths (d : InstanceData)
    (boxes : List RedactBox) (setting : String) (h : Heap) (inst : Nat)
    (hmiss : d.photometric = none) :
    check_if_greyscale d = .error .keyError ∧
    convert_dcm_to_png d = .error .keyError ∧
    get_most_common_pixel_value d setting = .error .attributeError ∧
    (h.read inst = d → inst < h.next →
      add_redact_box h inst boxes setting = .error .keyError) := by
  have hchk : check_if_greyscale d = .error .keyError := by
    rw [check_if_greyscale, hmiss]
  have hpx : pixel_array d = .error .attributeError := by
    rw [pixel_array, hmiss]
  refine ⟨hchk, ?_, ?_, ?_⟩
  · rw [convert_dcm_to_png, hchk]
  · rw [get_most_common_pixel_value, hpx]
  · intro hread hlt
    have hne : inst ≠ h.next := Nat.ne_of_lt hlt
    have halloc : (h.alloc (h.read inst)).1.read inst = d := by
      simp [Heap.alloc, Heap.read, hne]
      exact hread
    rw [add_redact_box]
    simp only [halloc, hchk]

/-- Reading an indexed map at position `j` applies the function at index
`i + j`. -/
theorem getElem?_mapIdxFrom (f : Nat → α → α) (i j : Nat) (l : List α) :
    (mapIdxFrom f i l)[j]? = (l[j]?).map (f (i + j)) := by
  induction l generalizing i j with
  | nil => simp [mapIdxFrom]
  | cons a as ih =>
    cases j with
    | zero => simp [mapIdxFrom]
    | succ n =>
      rw [mapIdxFrom]
      simp only [List.getElem?_cons_succ]
      rw [ih (i + 1) n]
      have harith : i + 1 + n = i + (n + 1) := by omega
      rw [harith]

/-- One slice assignment, read back pixelwise: pixels inside the rectangle
hold the mask color, pixels outside are unchanged. -/
theorem getPix_applyBox (px : List (List Int)) (b : RedactBox) (color : Int)
    (r c : Nat) :
    getPix (applyBox px b color) r c
      = (getPix px r c).map fun v => if covers b r c then color else v := by
  unfold getPix applyBox
  rw [getElem?_mapIdxFrom]
  simp only [Nat.zero_add]
  cases hrow : px[r]? with
  | none => rfl
  | some row =>
    simp only [Option.map, Option.bind]
    by_cases hr : b.top ≤ r ∧ r < b.top + b.height
    · rw [if_pos hr, getElem?_mapIdxFrom]
      simp only [Nat.zero_add]
      cases hc : row[c]? with
      | none => rfl
      | some v =>
        simp only [Option.map]
        by_cases hcc : b.left ≤ c ∧ c < b.left + b.width
        · rw [if_pos hcc, if_pos ⟨hr, hcc⟩]
        · rw [if_neg hcc, if_neg (fun hcv => hcc hcv.2)]
    · rw [if_neg hr]
      cases hc : row[c]? with
      | none => rfl
      | some v =>
        simp only [Option.map]
        rw [if_neg (fun hcv => hr hcv.1)]

/-- The sequential masking loop, read back pixelwise: a pixel covered by
some rectangle of the list holds the mask color, every other pixel is
unchanged.  All rectangles write the same color, so the last write of the
sequential, input-ordered loop equals every earlier write on an overlap. -/
theorem getPix_apply_mask (boxes : List RedactBox) (px : List (List Int))
    (color : Int) (r c : Nat) :
    getPix (apply_mask px boxes color) r c
      = (getPix px r c).map
          fun v => if ∃ b ∈ boxes, covers b r c then color else v := by
  induction boxes generalizing px with
  | nil =>
    rw [apply_mask]
    cases hx : getPix px r c <;> simp
  | cons b bs ih =>
    rw [apply_mask, ih, getPix_applyBox]
    cases hx : getPix px r c with
    | none => rfl
    | some v =>
      simp only [Option.map]
      by_cases hb : covers b r c
      · simp [hb]
      · by_cases hex : ∃ x ∈ bs, covers x r c
        · simp [hb, hex]
        · simp [hb, hex]

/-- C1: on a greyscale instance, whenever the color selector returns a mask
color, `_add_redact_box` succeeds and the returned instance reads back
exactly as the original with every pixel inside some rectangle's span
`[top, top+height) x [left, left+width)` replaced by that mask color and
every pixel outside all rectangles unchanged; rectangles are applied
sequentially in input-list order (`apply_mask`), so overlaps resolve as
last-write-wins, which coincides with this characterization because every
write uses the same selected color. -/
theorem add_redact_box_masks_exactly (h : Heap) (inst : Nat)
    (boxes : List RedactBox) (setting : String) (color : Int)
    (hv : inst < h.next)
    (hgrey : check_if_greyscale (h.read inst) = .ok true)
    (hcolor : get_most_common_pixel_value (h.read inst) setting = .ok color) :
    ∃ hout red, add_redact_box h inst boxes setting = .ok (hout, red) ∧
      ∀ r c, getPix (hout.read red).pixels r c
        = (getPix (h.read inst).pixels r c).map
            fun v => if ∃ b ∈ boxes, covers b r c then color else v := by
  have hne : inst ≠ h.next := Nat.ne_of_lt hv
  rw [add_redact_box]
  dsimp only [Heap.alloc, Heap.read]
  rw [if_neg hne]
  dsimp only [Heap.read] at hgrey hcolor
  rw [hgrey, hcolor]
  refine ⟨_, h.next, rfl, ?_⟩
  intro r c
  dsimp only [Heap.read, Heap.write]
  rw [if_pos rfl]
  dsimp only
  rw [if_pos rfl]
  exact getPix_apply_mask boxes _ color r c

/-- C2: for every instance, rectangle list and setting, `_add_redact_box`
mutates only the `copy.deepcopy`-allocated working copy: the returned
reference is fresh and the caller's instance is completely unchanged
(every branch, grey or color, reads the original but writes the copy). -/
theorem add_redact_box_preserves_original (h : Heap) (inst : Nat)
    (boxes : List RedactBox) (setting : String) (hv : inst < h.next) :
    addRedactBoxPreserves h inst boxes setting := by
  have hne : inst ≠ h.next := Nat.ne_of_lt hv
  unfold addRedactBoxPreserves
  rw [add_redact_box]
  dsimp only [Heap.alloc, Heap.read]
  rw [if_neg hne, if_pos rfl]
  cases hg : check_if_greyscale (h.data inst) with
  | error e => dsimp only
  | ok isGrey =>
    dsimp only
    cases hc : (if isGrey = true then
        get_most_common_pixel_value (h.data inst) setting
      else
        match set_bbox_color (h.data inst) setting with
        | .error e => .error e
        | .ok c => .ok (Int.ofNat c)) with
    | error e => dsimp only
    | ok boxColor =>
      dsimp only
      refine ⟨fun hcon => hne hcon.symm, ?_⟩
      dsimp only [Heap.read, Heap.write]
      rw [if_neg hne, if_neg hne]

/-- Witness for C1: the masking theorem applied to `cGreyInst` (mode 0,
maximum 7, so the contrast mask color is 7) and one concrete rectangle. -/
theorem add_redact_box_masks_exactly_witness :
    0 < cHeap.next ∧
    check_if_greyscale (cHeap.read 0) = .ok true ∧
    get_most_common_pixel_value (cHeap.read 0) "contrast" = .ok 7 ∧
    (∃ hout red,
      add_redact_box cHeap 0 [⟨0, 0, 1, 1⟩] "contrast" = .ok (hout, red) ∧
      ∀ r c, getPix (hout.read red).pixels r c
        = (getPix (cHeap.read 0).pixels r c).map
            fun v => if ∃ b ∈ [(⟨0, 0, 1, 1⟩ : RedactBox)], covers b r c
              then 7 else v) :=
  ⟨by decide, rfl, rfl,
    add_redact_box_masks_exactly cHeap 0 [⟨0, 0, 1, 1⟩] "contrast" 7
      (by decide) rfl rfl⟩

/-- Witness for C2: the preservation theorem applied to the concrete heap
holding `cGreyInst` at reference 0. -/
theorem add_redact_box_preserves_original_witness :
    0 < cHeap.next ∧ addRedactBoxPreserves cHeap 0 [⟨0, 1, 1, 2⟩] "background" :=
  ⟨by decide,
    add_redact_box_preserves_original cHeap 0 [⟨0, 1, 1, 2⟩] "background"
      (by decide)⟩

/-- Witness for C10 (amended): on the concrete element-free instance the
check, the conversion and the applicator fail with `KeyError` and the
most-common-pixel-value selection with `AttributeError`. -/
theorem missing_photometric_error_paths_witness :
    cMissInst.photometric = none ∧
    check_if_greyscale cMissInst = .error .keyError ∧
    convert_dcm_to_png cMissInst = .error .keyError ∧
    get_most_common_pixel_value cMissInst "contrast"
      = .error .attributeError ∧
    add_redact_box cMissHeap 0 [] "contrast" = .error .keyError :=
  ⟨rfl,
    (missing_photometric_error_paths cMissInst [] "contrast" cMissHeap 0
      rfl).1,
    (missing_photometric_error_paths cMissInst [] "contrast" cMissHeap 0
      rfl).2.1,
    (missing_photometric_error_paths cMissInst [] "contrast" cMissHeap 0
      rfl).2.2.1,
    (missing_photometric_error_paths cMissInst [] "contrast" cMissHeap 0
      rfl).2.2.2 rfl (by decide)⟩
